import Mathlib

/-!
Verification of the 2048 engine (`game.py`) and the agent's move selection
(`agent.py`) of zhzhang/2048-llms, via a shallow embedding.

Boards are modelled as `List (List Nat)` (a 4x4 numpy integer array; tile
values in every reachable game state stay far below 2^63, so int64
wraparound is not modelled).  Randomness is made explicit: each call of
`random.random() < 0.9` becomes a `Bool` parameter, and each
`random.choice(empty)` becomes a `Nat` parameter used modulo the number of
candidates (a uniformly distributed index).  The Python `IllegalMove`
exception becomes an `Option` result (`none` = exception raised).
-/

namespace Game2048

/-- The `Move` enum of game.py (LEFT = 0, RIGHT = 1, UP = 2, DOWN = 3). -/
inductive Move where
  | left
  | right
  | up
  | down
deriving DecidableEq

abbrev Row := List Nat

abbrev Board := List Row

/-- The four directions in the source's enumeration order (`for move_direction
in Move` iterates LEFT, RIGHT, UP, DOWN). -/
def allMoves : List Move := [Move.left, Move.right, Move.up, Move.down]

/-- `board[i, j]` on a 4x4 numpy array. -/
def cell (b : Board) (i j : Nat) : Nat := (b.getD i []).getD j 0

/-- Well-formedness: a 4x4 board (numpy arrays are rectangular). -/
def Wf (b : Board) : Prop := b.length = 4 ∧ ∀ r ∈ b, r.length = 4

/-- `np.flip(b, 1)`: reverse each row (flip along the column axis). -/
def flipCols (b : Board) : Board := b.map List.reverse

/-- `np.transpose(b)` for a 4x4 board: entry `(r, c)` of the result is entry
`(c, r)` of `b`. -/
def transposeB (b : Board) : Board :=
  (List.range 4).map (fun r => (List.range 4).map (fun c => cell b c r))

/-- The inner merge loop of `move` (game.py lines 48-63), with the accumulator
`new` kept in reverse order: `acc.headD 0` is `new[-1]` and `lastVal` is
`last_val`.  A `0` cell is skipped; a value equal to `last_val` doubles
`new[-1]` and clears `last_val`; otherwise the value is appended and becomes
`last_val`. -/
def mergeStep : List Nat → List Nat → Nat → List Nat
  | [], acc, _ => acc
  | v :: rest, acc, lastVal =>
    if v = 0 then mergeStep rest acc lastVal
    else if acc = [] then mergeStep rest [v] v
    else if v = lastVal then mergeStep rest (acc.headD 0 * 2 :: acc.tail) 0
    else mergeStep rest (v :: acc) v

/-- One row of `move`: run the merge loop, then pad with zeros to length 4
(game.py lines 64-65). -/
def compressRow (row : Row) : Row :=
  let merged := (mergeStep row [] 0).reverse
  merged ++ List.replicate (4 - merged.length) 0

/-- The row loop of `move` (game.py lines 45-68). -/
def compressBoard (b : Board) : Board := b.map compressRow

/-- The normalization applied before compressing (game.py lines 38-43). -/
def transform : Move → Board → Board
  | Move.left, b => b
  | Move.right, b => flipCols b
  | Move.up, b => transposeB b
  | Move.down, b => flipCols (transposeB b)

/-- The inverse transform restoring the orientation (game.py lines 71-76). -/
def invTransform : Move → Board → Board
  | Move.left, b => b
  | Move.right, b => flipCols b
  | Move.up, b => transposeB b
  | Move.down, b => transposeB (flipCols b)

/-- The pre-spawn merged board computed by `move`: normalize, compress each
row leftward, restore the orientation. -/
def moveBoard (m : Move) (b : Board) : Board :=
  invTransform m (compressBoard (transform m b))

/-- `move` up to (and including) the legality check of game.py line 79, i.e.
the merged board before `add_random_tile`; `none` models raising
`IllegalMove`.  The source works on a copy of `board` (line 36), so the
caller's board is never modified; the embedding mirrors this by being a pure
function. -/
def movePre (b : Board) (m : Move) : Option Board :=
  if moveBoard m b = b then none else some (moveBoard m b)

/-- `value = 2 if random.random() < 0.9 else 4` (game.py line 26); the draw
`random.random() < 0.9` is the explicit `randLt09` parameter, true with
probability 0.9. -/
def tileValue (randLt09 : Bool) : Nat := if randLt09 then 2 else 4

/-- `np.transpose((board == 0).nonzero())`: the coordinates of the empty
cells in row-major order (game.py line 27). -/
def emptyCells (b : Board) : List (Nat × Nat) :=
  ((List.range 4).map (fun i =>
    (List.range 4).filterMap (fun j =>
      if cell b i j = 0 then some (i, j) else none))).flatten

/-- `board[i, j] = v` on a well-formed board. -/
def setCell (b : Board) (i j v : Nat) : Board :=
  b.set i ((b.getD i []).set j v)

/-- `add_random_tile` (game.py lines 25-31): draw the value, list the empty
cells, return the board unchanged if there are none, otherwise write the
value onto the chosen empty cell.  `random.choice(empty)` (uniform over the
empty cells) is modelled by the index `choice % empty.length` with `choice`
a uniformly drawn natural number. -/
def add_random_tile (b : Board) (randLt09 : Bool) (choice : Nat) : Board :=
  let empty := emptyCells b
  if empty.length = 0 then b
  else
    let c := empty.getD (choice % empty.length) (0, 0)
    setCell b c.1 c.2 (tileValue randLt09)

/-- The all-zero starting grid `np.zeros((4, 4), dtype=int)`. -/
def zeroBoard : Board := List.replicate 4 (List.replicate 4 0)

/-- `init_board` (game.py lines 18-22): two `add_random_tile` calls on the
zero board, with the four random draws explicit. -/
def init_board (t1 : Bool) (k1 : Nat) (t2 : Bool) (k2 : Nat) : Board :=
  add_random_tile (add_random_tile zeroBoard t1 k1) t2 k2

/-- The full `move` (game.py lines 34-83): merge, raise `IllegalMove`
(`none`) when nothing changed, otherwise spawn a random tile on the merged
board and return it. -/
def move (b : Board) (m : Move) (randLt09 : Bool) (choice : Nat) :
    Option Board :=
  (movePre b m).map (fun nb => add_random_tile nb randLt09 choice)

/-- `GameAgent.get_available_moves` (agent.py lines 45-56): try each of the
four directions in enumeration order on a copy of the board, keeping those
that do not raise `IllegalMove`.  The random draws consumed by the discarded
test moves are the explicit `draws` function. -/
def get_available_moves (b : Board) (draws : Move → Bool × Nat) :
    List Move :=
  allMoves.filter (fun m => (move b m (draws m).1 (draws m).2).isSome)

/-! ### Reference definitions taken from the spec's words -/

/-- The row-merge scan exactly as §4.2 of the spec words it: traverse left to
right skipping zeros; if the current nonzero value equals the tracked value,
double the last placed value in place and clear the tracked value; otherwise
append the value as a new tile and set it as tracked. -/
def specScan : List Nat → List Nat → Nat → List Nat
  | [], placed, _ => placed
  | v :: rest, placed, tracked =>
    if v = 0 then specScan rest placed tracked
    else if v = tracked then
      specScan rest (placed.dropLast ++ [placed.getLastD 0 * 2]) 0
    else specScan rest (placed ++ [v]) v

/-- §4.2's reference row compression: the scan, then pad with zeros on the
right to length 4. -/
def specCompressRow (row : Row) : Row :=
  let out := specScan row [] 0
  out ++ List.replicate (4 - out.length) 0

/-! ### C1: the merge loop matches the spec's reference scan -/

/-- The merge loop's accumulator is the spec scan's `placed` list reversed;
the invariant is that a nonzero `lastVal` is the head of the accumulator
(the most recently placed tile). -/
lemma mergeStep_reverse_eq :
    ∀ (l acc : List Nat) (lastVal : Nat),
      (lastVal ≠ 0 → ∃ t, acc = lastVal :: t) →
      (mergeStep l acc lastVal).reverse = specScan l acc.reverse lastVal := by
  intro l
  induction l with
  | nil => intro acc lastVal _; rfl
  | cons v rest ih =>
    intro acc lastVal hinv
    by_cases hv : v = 0
    · subst hv
      simp only [mergeStep, specScan, if_pos rfl]
      exact ih acc lastVal hinv
    · rcases acc with _ | ⟨a, t⟩
      · have hl : lastVal = 0 := by
          by_contra hne
          obtain ⟨t, ht⟩ := hinv hne
          exact List.noConfusion ht
        subst hl
        simp only [mergeStep, specScan, if_neg hv, if_pos rfl]
        have := ih [v] v (fun _ => ⟨[], rfl⟩)
        simpa using this
      · have hne : (a :: t) ≠ ([] : List Nat) := by simp
        by_cases hvl : v = lastVal
        · obtain ⟨t', ht'⟩ := hinv (by rw [← hvl]; exact hv)
          have ha : a = lastVal := by
            injection ht' with h1 _
          simp only [mergeStep, specScan, if_neg hv, if_neg hne, if_pos hvl,
            List.headD_cons, List.tail_cons]
          have hrev : (a :: t).reverse = t.reverse ++ [a] := by
            simp [List.reverse_cons]
          rw [hrev, List.dropLast_concat, List.getLastD_concat]
          have := ih (a * 2 :: t) 0 (by intro h; exact absurd rfl h)
          rw [this]
          simp [List.reverse_cons]
        · simp only [mergeStep, specScan, if_neg hv, if_neg hne, if_neg hvl]
          have := ih (v :: a :: t) v (fun _ => ⟨a :: t, rfl⟩)
          rw [this]
          simp [List.reverse_cons]

/-- Row compression agrees with the spec's reference scan on every row. -/
lemma compressRow_eq_spec (row : Row) : compressRow row = specCompressRow row := by
  simp only [compressRow, specCompressRow]
  rw [mergeStep_reverse_eq row [] 0 (by intro h; exact absurd rfl h)]
  rfl

/-- C1: compressing a row leftward equals the spec's reference scan (skip
zeros, double the last placed value and clear the tracked value on a match,
otherwise append and track; pad with zeros to length 4); in particular
`[2,2,2,2]` yields `[4,4,0,0]` and `[2,0,0,2]` yields `[4,0,0,0]`. -/
theorem compressRow_matches_spec_scan :
    (∀ row : Row, compressRow row = specCompressRow row) ∧
      compressRow [2, 2, 2, 2] = [4, 4, 0, 0] ∧
      compressRow [2, 0, 0, 2] = [4, 0, 0, 0] :=
  ⟨compressRow_eq_spec, by decide, by decide⟩

/-! ### Board destructuring -/

lemma exists_fourElems {α : Type} {l : List α} (h : l.length = 4) :
    ∃ a b c d, l = [a, b, c, d] := by
  obtain _ | ⟨a, l⟩ := l
  · simp at h
  obtain _ | ⟨b, l⟩ := l
  · simp at h
  obtain _ | ⟨c, l⟩ := l
  · simp at h
  obtain _ | ⟨d, l⟩ := l
  · simp at h
  obtain _ | ⟨e, l⟩ := l
  · exact ⟨a, b, c, d, rfl⟩
  · simp at h

/-- A well-formed board is a concrete 4x4 nested list of its 16 entries. -/
lemma wf_board_eq {b : Board} (h : Wf b) :
    ∃ x00 x01 x02 x03 x10 x11 x12 x13 x20 x21 x22 x23 x30 x31 x32 x33,
      b = [[x00, x01, x02, x03], [x10, x11, x12, x13],
           [x20, x21, x22, x23], [x30, x31, x32, x33]] := by
  obtain ⟨hlen, hrow⟩ := h
  obtain ⟨r0, r1, r2, r3, rfl⟩ := exists_fourElems hlen
  obtain ⟨x00, x01, x02, x03, rfl⟩ := exists_fourElems (hrow r0 (by simp))
  obtain ⟨x10, x11, x12, x13, rfl⟩ := exists_fourElems (hrow r1 (by simp))
  obtain ⟨x20, x21, x22, x23, rfl⟩ := exists_fourElems (hrow r2 (by simp))
  obtain ⟨x30, x31, x32, x33, rfl⟩ := exists_fourElems (hrow r3 (by simp))
  exact ⟨x00, x01, x02, x03, x10, x11, x12, x13,
    x20, x21, x22, x23, x30, x31, x32, x33, rfl⟩

/-! ### C2: direct per-direction compression and the transform round-trip -/

/-- Column `j` of a board. -/
def colOf (b : Board) (j : Nat) : Row :=
  (List.range 4).map (fun i => cell b i j)

/-- Compressing directly along LEFT: each row compressed leftward. -/
def specCompressLeft (b : Board) : Board := b.map compressRow

/-- Compressing directly along RIGHT: each row reversed, compressed, and
reversed back (tiles slide to the right end of the row). -/
def specCompressRight (b : Board) : Board :=
  b.map (fun r => (compressRow r.reverse).reverse)

/-- Compressing directly along UP: column `j` of the result is column `j` of
the input compressed toward its start. -/
def specCompressUp (b : Board) : Board :=
  (List.range 4).map (fun i =>
    (List.range 4).map (fun j => (compressRow (colOf b j)).getD i 0))

/-- Compressing directly along DOWN: column `j` of the result is column `j`
of the input compressed toward its end. -/
def specCompressDown (b : Board) : Board :=
  (List.range 4).map (fun i =>
    (List.range 4).map (fun j =>
      ((compressRow (colOf b j).reverse).reverse).getD i 0))

/-- C2: on every well-formed board, each direction's normalization transform
followed by its inverse is the identity, and normalizing, compressing each
row leftward and inverse-transforming equals compressing directly along the
requested direction. -/
theorem transform_roundtrip_and_compress (b : Board) (h : Wf b) :
    (∀ m : Move, invTransform m (transform m b) = b) ∧
      moveBoard Move.left b = specCompressLeft b ∧
      moveBoard Move.right b = specCompressRight b ∧
      moveBoard Move.up b = specCompressUp b ∧
      moveBoard Move.down b = specCompressDown b := by
  obtain ⟨x00, x01, x02, x03, x10, x11, x12, x13,
    x20, x21, x22, x23, x30, x31, x32, x33, rfl⟩ := wf_board_eq h
  refine ⟨fun m => ?_, rfl, rfl, rfl, rfl⟩
  cases m <;> rfl

/-- Witness for C2 at a concrete board. -/
theorem transform_roundtrip_and_compress_witness :
    invTransform Move.down (transform Move.down
        [[2, 4, 0, 0], [0, 2, 0, 0], [0, 0, 8, 0], [0, 0, 0, 16]]) =
      [[2, 4, 0, 0], [0, 2, 0, 0], [0, 0, 8, 0], [0, 0, 0, 16]] :=
  (transform_roundtrip_and_compress
    [[2, 4, 0, 0], [0, 2, 0, 0], [0, 0, 8, 0], [0, 0, 0, 16]]
    (by constructor <;> simp)).1 Move.down

/-! ### C3 / C4: legality -/

/-- Every cell of the board is occupied. -/
def fullBoard (b : Board) : Prop := ∀ i < 4, ∀ j < 4, cell b i j ≠ 0

/-- No two horizontally or vertically adjacent cells hold equal values. -/
def noAdjacentEqual (b : Board) : Prop :=
  (∀ i < 4, ∀ j < 3, cell b i j ≠ cell b i (j + 1)) ∧
    (∀ i < 3, ∀ j < 4, cell b i j ≠ cell b (i + 1) j)

instance (b : Board) : Decidable (fullBoard b) := by
  unfold fullBoard; infer_instance

instance (b : Board) : Decidable (noAdjacentEqual b) := by
  unfold noAdjacentEqual; infer_instance

/-- A row of four occupied, pairwise-adjacently-distinct cells compresses to
itself. -/
lemma compressRow_of_no_change {a b c d : Nat} (ha : a ≠ 0) (hb : b ≠ 0)
    (hc : c ≠ 0) (hd : d ≠ 0) (hba : b ≠ a) (hcb : c ≠ b) (hdc : d ≠ c) :
    compressRow [a, b, c, d] = [a, b, c, d] := by
  simp [compressRow, mergeStep, ha, hb, hc, hd, hba, hcb, hdc]

lemma isSome_move (b : Board) (m : Move) (t : Bool) (k : Nat) :
    (move b m t k).isSome = decide (moveBoard m b ≠ b) := by
  by_cases hm : moveBoard m b = b <;> simp [move, movePre, hm]

/-- The list of available moves is the fixed enumeration filtered by the
pure legality test, independently of the random draws consumed by the
discarded test moves. -/
lemma get_available_moves_eq (b : Board) (draws : Move → Bool × Nat) :
    get_available_moves b draws =
      allMoves.filter (fun m => decide (moveBoard m b ≠ b)) := by
  unfold get_available_moves
  apply List.filter_congr
  intro m _
  exact isSome_move b m _ _

/-- C3: `move` raises `IllegalMove` (returns `none`) iff compressing along
the requested direction leaves every cell unchanged, and never returns an
unchanged board; on a full board with no two adjacent equal values in any
row or column every direction is illegal and `get_available_moves` is empty.
(The caller's board is never modified: `move` works on a copy, which the
pure embedding reflects.) -/
theorem move_illegal_iff_unchanged (b : Board) (h : Wf b) :
    (∀ (m : Move) (t : Bool) (k : Nat),
        (move b m t k = none ↔ moveBoard m b = b) ∧
        ∀ r, move b m t k = some r → moveBoard m b ≠ b) ∧
      (fullBoard b → noAdjacentEqual b →
        ∀ draws, get_available_moves b draws = []) := by
  constructor
  · intro m t k
    constructor
    · by_cases hm : moveBoard m b = b <;> simp [move, movePre, hm]
    · intro r hr hm
      simp [move, movePre, hm] at hr
  · intro hfull hadj draws
    obtain ⟨x00, x01, x02, x03, x10, x11, x12, x13,
      x20, x21, x22, x23, x30, x31, x32, x33, rfl⟩ := wf_board_eq h
    obtain ⟨hrow, hcol⟩ := hadj
    have n00 : x00 ≠ 0 := hfull 0 (by norm_num) 0 (by norm_num)
    have n01 : x01 ≠ 0 := hfull 0 (by norm_num) 1 (by norm_num)
    have n02 : x02 ≠ 0 := hfull 0 (by norm_num) 2 (by norm_num)
    have n03 : x03 ≠ 0 := hfull 0 (by norm_num) 3 (by norm_num)
    have n10 : x10 ≠ 0 := hfull 1 (by norm_num) 0 (by norm_num)
    have n11 : x11 ≠ 0 := hfull 1 (by norm_num) 1 (by norm_num)
    have n12 : x12 ≠ 0 := hfull 1 (by norm_num) 2 (by norm_num)
    have n13 : x13 ≠ 0 := hfull 1 (by norm_num) 3 (by norm_num)
    have n20 : x20 ≠ 0 := hfull 2 (by norm_num) 0 (by norm_num)
    have n21 : x21 ≠ 0 := hfull 2 (by norm_num) 1 (by norm_num)
    have n22 : x22 ≠ 0 := hfull 2 (by norm_num) 2 (by norm_num)
    have n23 : x23 ≠ 0 := hfull 2 (by norm_num) 3 (by norm_num)
    have n30 : x30 ≠ 0 := hfull 3 (by norm_num) 0 (by norm_num)
    have n31 : x31 ≠ 0 := hfull 3 (by norm_num) 1 (by norm_num)
    have n32 : x32 ≠ 0 := hfull 3 (by norm_num) 2 (by norm_num)
    have n33 : x33 ≠ 0 := hfull 3 (by norm_num) 3 (by norm_num)
    have r00 : x00 ≠ x01 := hrow 0 (by norm_num) 0 (by norm_num)
    have r01 : x01 ≠ x02 := hrow 0 (by norm_num) 1 (by norm_num)
    have r02 : x02 ≠ x03 := hrow 0 (by norm_num) 2 (by norm_num)
    have r10 : x10 ≠ x11 := hrow 1 (by norm_num) 0 (by norm_num)
    have r11 : x11 ≠ x12 := hrow 1 (by norm_num) 1 (by norm_num)
    have r12 : x12 ≠ x13 := hrow 1 (by norm_num) 2 (by norm_num)
    have r20 : x20 ≠ x21 := hrow 2 (by norm_num) 0 (by norm_num)
    have r21 : x21 ≠ x22 := hrow 2 (by norm_num) 1 (by norm_num)
    have r22 : x22 ≠ x23 := hrow 2 (by norm_num) 2 (by norm_num)
    have r30 : x30 ≠ x31 := hrow 3 (by norm_num) 0 (by norm_num)
    have r31 : x31 ≠ x32 := hrow 3 (by norm_num) 1 (by norm_num)
    have r32 : x32 ≠ x33 := hrow 3 (by norm_num) 2 (by norm_num)
    have c00 : x00 ≠ x10 := hcol 0 (by norm_num) 0 (by norm_num)
    have c01 : x01 ≠ x11 := hcol 0 (by norm_num) 1 (by norm_num)
    have c02 : x02 ≠ x12 := hcol 0 (by norm_num) 2 (by norm_num)
    have c03 : x03 ≠ x13 := hcol 0 (by norm_num) 3 (by norm_num)
    have c10 : x10 ≠ x20 := hcol 1 (by norm_num) 0 (by norm_num)
    have c11 : x11 ≠ x21 := hcol 1 (by norm_num) 1 (by norm_num)
    have c12 : x12 ≠ x22 := hcol 1 (by norm_num) 2 (by norm_num)
    have c13 : x13 ≠ x23 := hcol 1 (by norm_num) 3 (by norm_num)
    have c20 : x20 ≠ x30 := hcol 2 (by norm_num) 0 (by norm_num)
    have c21 : x21 ≠ x31 := hcol 2 (by norm_num) 1 (by norm_num)
    have c22 : x22 ≠ x32 := hcol 2 (by norm_num) 2 (by norm_num)
    have c23 : x23 ≠ x33 := hcol 2 (by norm_num) 3 (by norm_num)
    have hL : moveBoard Move.left
        [[x00, x01, x02, x03], [x10, x11, x12, x13],
         [x20, x21, x22, x23], [x30, x31, x32, x33]] =
        [[x00, x01, x02, x03], [x10, x11, x12, x13],
         [x20, x21, x22, x23], [x30, x31, x32, x33]] := by
      show [compressRow [x00, x01, x02, x03], compressRow [x10, x11, x12, x13],
            compressRow [x20, x21, x22, x23], compressRow [x30, x31, x32, x33]] = _
      rw [compressRow_of_no_change n00 n01 n02 n03
            (Ne.symm r00) (Ne.symm r01) (Ne.symm r02),
        compressRow_of_no_change n10 n11 n12 n13
            (Ne.symm r10) (Ne.symm r11) (Ne.symm r12),
        compressRow_of_no_change n20 n21 n22 n23
            (Ne.symm r20) (Ne.symm r21) (Ne.symm r22),
        compressRow_of_no_change n30 n31 n32 n33
            (Ne.symm r30) (Ne.symm r31) (Ne.symm r32)]
    have hR : moveBoard Move.right
        [[x00, x01, x02, x03], [x10, x11, x12, x13],
         [x20, x21, x22, x23], [x30, x31, x32, x33]] =
        [[x00, x01, x02, x03], [x10, x11, x12, x13],
         [x20, x21, x22, x23], [x30, x31, x32, x33]] := by
      show [(compressRow [x03, x02, x01, x00]).reverse,
            (compressRow [x13, x12, x11, x10]).reverse,
            (compressRow [x23, x22, x21, x20]).reverse,
            (compressRow [x33, x32, x31, x30]).reverse] = _
      rw [compressRow_of_no_change n03 n02 n01 n00 r02 r01 r00,
        compressRow_of_no_change n13 n12 n11 n10 r12 r11 r10,
        compressRow_of_no_change n23 n22 n21 n20 r22 r21 r20,
        compressRow_of_no_change n33 n32 n31 n30 r32 r31 r30]
      rfl
    have hU : moveBoard Move.up
        [[x00, x01, x02, x03], [x10, x11, x12, x13],
         [x20, x21, x22, x23], [x30, x31, x32, x33]] =
        [[x00, x01, x02, x03], [x10, x11, x12, x13],
         [x20, x21, x22, x23], [x30, x31, x32, x33]] := by
      have hcomp : compressBoard (transposeB
          [[x00, x01, x02, x03], [x10, x11, x12, x13],
           [x20, x21, x22, x23], [x30, x31, x32, x33]]) = transposeB
          [[x00, x01, x02, x03], [x10, x11, x12, x13],
           [x20, x21, x22, x23], [x30, x31, x32, x33]] := by
        show [compressRow [x00, x10, x20, x30], compressRow [x01, x11, x21, x31],
              compressRow [x02, x12, x22, x32], compressRow [x03, x13, x23, x33]] = _
        rw [compressRow_of_no_change n00 n10 n20 n30
              (Ne.symm c00) (Ne.symm c10) (Ne.symm c20),
          compressRow_of_no_change n01 n11 n21 n31
              (Ne.symm c01) (Ne.symm c11) (Ne.symm c21),
          compressRow_of_no_change n02 n12 n22 n32
              (Ne.symm c02) (Ne.symm c12) (Ne.symm c22),
          compressRow_of_no_change n03 n13 n23 n33
              (Ne.symm c03) (Ne.symm c13) (Ne.symm c23)]
        rfl
      show transposeB (compressBoard (transposeB _)) = _
      rw [hcomp]
      rfl
    have hD : moveBoard Move.down
        [[x00, x01, x02, x03], [x10, x11, x12, x13],
         [x20, x21, x22, x23], [x30, x31, x32, x33]] =
        [[x00, x01, x02, x03], [x10, x11, x12, x13],
         [x20, x21, x22, x23], [x30, x31, x32, x33]] := by
      have hcomp : compressBoard (flipCols (transposeB
          [[x00, x01, x02, x03], [x10, x11, x12, x13],
           [x20, x21, x22, x23], [x30, x31, x32, x33]])) = flipCols (transposeB
          [[x00, x01, x02, x03], [x10, x11, x12, x13],
           [x20, x21, x22, x23], [x30, x31, x32, x33]]) := by
        show [compressRow [x30, x20, x10, x00], compressRow [x31, x21, x11, x01],
              compressRow [x32, x22, x12, x02], compressRow [x33, x23, x13, x03]] = _
        rw [compressRow_of_no_change n30 n20 n10 n00 c20 c10 c00,
          compressRow_of_no_change n31 n21 n11 n01 c21 c11 c01,
          compressRow_of_no_change n32 n22 n12 n02 c22 c12 c02,
          compressRow_of_no_change n33 n23 n13 n03 c23 c13 c03]
        rfl
      show transposeB (flipCols (compressBoard (flipCols (transposeB _)))) = _
      rw [hcomp]
      rfl
    rw [get_available_moves_eq]
    simp [allMoves, hL, hR, hU, hD]

/-- Witness for C3 on a stuck checkerboard. -/
theorem move_illegal_iff_unchanged_witness :
    get_available_moves
      [[2, 4, 2, 4], [4, 2, 4, 2], [2, 4, 2, 4], [4, 2, 4, 2]]
      (fun _ => (true, 0)) = [] :=
  (move_illegal_iff_unchanged
      [[2, 4, 2, 4], [4, 2, 4, 2], [2, 4, 2, 4], [4, 2, 4, 2]]
      (by constructor <;> simp)).2
    (by decide) (by decide) (fun _ => (true, 0))

/-- C4: `get_available_moves` tests all four directions and returns exactly
the legal ones in the fixed enumeration order LEFT, RIGHT, UP, DOWN; it is a
pure function of the board alone — the random draws consumed by the
discarded test copies never influence the result, no tile is spawned on the
caller's board, and the board is not modified (the test runs on a copy,
which the pure embedding reflects). -/
theorem get_available_moves_pure (b : Board) (d1 d2 : Move → Bool × Nat) :
    get_available_moves b d1 =
        allMoves.filter (fun m => decide (moveBoard m b ≠ b)) ∧
      get_available_moves b d1 = get_available_moves b d2 := by
  refine ⟨get_available_moves_eq b d1, ?_⟩
  rw [get_available_moves_eq b d1, get_available_moves_eq b d2]

/-! ### C6 / C7: the tile spawner -/

instance (b : Board) : Decidable (Wf b) := by
  unfold Wf; infer_instance

lemma getD_set_self {α : Type} :
    ∀ (l : List α) (i : Nat) (v d : α), i < l.length →
      (l.set i v).getD i d = v := by
  intro l
  induction l with
  | nil => intro i v d h; simp at h
  | cons a t ih =>
    intro i v d h
    cases i with
    | zero => rfl
    | succ i => exact ih i v d (by simpa using h)

lemma getD_set_ne {α : Type} :
    ∀ (l : List α) (i i' : Nat) (v d : α), i ≠ i' →
      (l.set i v).getD i' d = l.getD i' d := by
  intro l
  induction l with
  | nil => intro i i' v d _; rfl
  | cons a t ih =>
    intro i i' v d h
    cases i with
    | zero =>
      cases i' with
      | zero => exact absurd rfl h
      | succ i' => rfl
    | succ i =>
      cases i' with
      | zero => rfl
      | succ i' => exact ih i i' v d (fun he => h (by rw [he]))

lemma getD_mem {α : Type} :
    ∀ (l : List α) (i : Nat) (d : α), i < l.length → l.getD i d ∈ l := by
  intro l
  induction l with
  | nil => intro i d h; simp at h
  | cons a t ih =>
    intro i d h
    cases i with
    | zero => exact List.mem_cons_self a t
    | succ i => exact List.mem_cons_of_mem a (ih i d (by simpa using h))

lemma mem_of_mem_set {α : Type} :
    ∀ (l : List α) (i : Nat) (v r : α), r ∈ l.set i v → r ∈ l ∨ r = v := by
  intro l
  induction l with
  | nil => intro i v r h; simp at h
  | cons a t ih =>
    intro i v r h
    cases i with
    | zero =>
      rcases List.mem_cons.1 h with h | h
      · exact Or.inr h
      · exact Or.inl (List.mem_cons_of_mem a h)
    | succ i =>
      rcases List.mem_cons.1 h with h | h
      · exact Or.inl (h ▸ List.mem_cons_self a t)
      · rcases ih i v r h with h | h
        · exact Or.inl (List.mem_cons_of_mem a h)
        · exact Or.inr h

/-- Membership in the empty-cell list is exactly being an in-range empty
cell. -/
lemma mem_emptyCells {b : Board} {p : Nat × Nat} :
    p ∈ emptyCells b ↔ p.1 < 4 ∧ p.2 < 4 ∧ cell b p.1 p.2 = 0 := by
  obtain ⟨i, j⟩ := p
  unfold emptyCells
  constructor
  · intro hmem
    obtain ⟨l, hl, hpl⟩ := List.mem_flatten.1 hmem
    obtain ⟨i', hi', rfl⟩ := List.mem_map.1 hl
    obtain ⟨j', hj', hij⟩ := List.mem_filterMap.1 hpl
    rw [List.mem_range] at hi' hj'
    by_cases hc : cell b i' j' = 0
    · rw [if_pos hc] at hij
      obtain ⟨rfl, rfl⟩ : i' = i ∧ j' = j := by
        injection hij with h1
        injection h1 with h2 h3
        exact ⟨h2, h3⟩
      exact ⟨hi', hj', hc⟩
    · rw [if_neg hc] at hij
      exact Option.noConfusion hij
  · rintro ⟨hi, hj, hc⟩
    refine List.mem_flatten.2 ⟨_, List.mem_map.2 ⟨i, List.mem_range.2 hi, rfl⟩,
      List.mem_filterMap.2 ⟨j, List.mem_range.2 hj, ?_⟩⟩
    rw [if_pos hc]

/-- The uniformly chosen index always selects a genuine empty cell. -/
lemma pick_mem_emptyCells (b : Board) (hne : emptyCells b ≠ []) (k : Nat) :
    (emptyCells b).getD (k % (emptyCells b).length) (0, 0) ∈ emptyCells b :=
  getD_mem _ _ _ (Nat.mod_lt _ (List.length_pos.2 hne))

lemma cell_setCell_self {b : Board} (h : Wf b) {i j : Nat}
    (hi : i < 4) (hj : j < 4) (v : Nat) :
    cell (setCell b i j v) i j = v := by
  obtain ⟨hlen, hrow⟩ := h
  unfold cell setCell
  rw [getD_set_self _ _ _ _ (by rw [hlen]; exact hi)]
  have hmem : b.getD i [] ∈ b := getD_mem _ _ _ (by rw [hlen]; exact hi)
  exact getD_set_self _ _ _ _ (by rw [hrow _ hmem]; exact hj)

lemma cell_setCell_ne {b : Board} {i j i' j' : Nat}
    (hne : (i', j') ≠ (i, j)) (v : Nat) :
    cell (setCell b i j v) i' j' = cell b i' j' := by
  unfold cell setCell
  by_cases hii : i = i'
  · subst hii
    have hjj : j ≠ j' := fun he => hne (by rw [he])
    by_cases hlt : i < b.length
    · rw [getD_set_self _ _ _ _ hlt]
      exact getD_set_ne _ _ _ _ _ hjj
    · rw [List.set_eq_of_length_le (Nat.le_of_not_lt hlt)]
  · rw [getD_set_ne _ _ _ _ _ hii]

lemma wf_setCell {b : Board} (h : Wf b) {i j : Nat} (hi : i < 4)
    (v : Nat) : Wf (setCell b i j v) := by
  obtain ⟨hlen, hrow⟩ := h
  refine ⟨by rw [setCell, List.length_set]; exact hlen, ?_⟩
  intro r hr
  rcases mem_of_mem_set _ _ _ _ hr with hr | rfl
  · exact hrow _ hr
  · rw [List.length_set]
    exact hrow _ (getD_mem _ _ _ (by rw [hlen]; exact hi))

/-- C6: on a board with at least one empty cell, `add_random_tile` writes
`tileValue t` (2 when the draw `random.random() < 0.9` holds, else 4) onto
the empty cell selected by the uniform index, leaves every other cell
unchanged, and never touches an occupied cell; on a board with no empty
cell it returns the board unchanged. -/
theorem add_random_tile_spec (b : Board) (h : Wf b) (t : Bool) (k : Nat) :
    (emptyCells b = [] → add_random_tile b t k = b) ∧
      (emptyCells b ≠ [] →
        ∃ i j, i < 4 ∧ j < 4 ∧ cell b i j = 0 ∧
          (i, j) ∈ emptyCells b ∧
          (i, j) = (emptyCells b).getD (k % (emptyCells b).length) (0, 0) ∧
          (tileValue t = 2 ∨ tileValue t = 4) ∧
          add_random_tile b t k = setCell b i j (tileValue t) ∧
          cell (add_random_tile b t k) i j = tileValue t ∧
          ∀ i' j', (i', j') ≠ (i, j) →
            cell (add_random_tile b t k) i' j' = cell b i' j') := by
  constructor
  · intro he
    simp [add_random_tile, he]
  · intro hne
    have hmem := pick_mem_emptyCells b hne k
    obtain ⟨hi, hj, hc⟩ := mem_emptyCells.1 hmem
    have hlen0 : ¬ (emptyCells b).length = 0 := by
      simpa [List.length_eq_zero] using hne
    have heq : add_random_tile b t k =
        setCell b ((emptyCells b).getD (k % (emptyCells b).length) (0, 0)).1
          ((emptyCells b).getD (k % (emptyCells b).length) (0, 0)).2
          (tileValue t) := by
      simp [add_random_tile, hlen0]
    refine ⟨_, _, hi, hj, hc, by simpa using hmem, rfl,
      by cases t <;> simp [tileValue], heq, ?_, ?_⟩
    · rw [heq]
      exact cell_setCell_self h hi hj _
    · intro i' j' hne'
      rw [heq]
      exact cell_setCell_ne (by simpa using hne') _

/-- Witness for C6: no-op on a full board, and a concrete spawn. -/
theorem add_random_tile_spec_witness :
    add_random_tile [[2, 4, 2, 4], [4, 2, 4, 2], [2, 4, 2, 4], [4, 2, 4, 2]]
        true 0 =
      [[2, 4, 2, 4], [4, 2, 4, 2], [2, 4, 2, 4], [4, 2, 4, 2]] :=
  (add_random_tile_spec
      [[2, 4, 2, 4], [4, 2, 4, 2], [2, 4, 2, 4], [4, 2, 4, 2]]
      (by decide) true 0).1 (by decide)

lemma cell_zeroBoard (i j : Nat) : cell zeroBoard i j = 0 := by
  have h1 : ∀ (n i : Nat), (List.replicate n (0 : Nat)).getD i 0 = 0 := by
    intro n
    induction n with
    | zero => intro i; rfl
    | succ n ih =>
      intro i
      cases i with
      | zero => rfl
      | succ i => exact ih i
  show ((zeroBoard.getD i []).getD j 0) = 0
  match i with
  | 0 => exact h1 4 j
  | 1 => exact h1 4 j
  | 2 => exact h1 4 j
  | 3 => exact h1 4 j
  | (n + 4) => rfl

/-- C7: for all four random draws, `init_board` produces a board holding
exactly two nonzero cells: they sit on distinct in-range cells, each holds
`tileValue` of its draw (2 on a sub-0.9 draw, else 4), and every other cell
is 0. -/
theorem init_board_two_tiles (t1 : Bool) (k1 : Nat) (t2 : Bool) (k2 : Nat) :
    ∃ p1 p2 : Nat × Nat,
      p1.1 < 4 ∧ p1.2 < 4 ∧ p2.1 < 4 ∧ p2.2 < 4 ∧ p1 ≠ p2 ∧
      cell (init_board t1 k1 t2 k2) p1.1 p1.2 = tileValue t1 ∧
      cell (init_board t1 k1 t2 k2) p2.1 p2.2 = tileValue t2 ∧
      (tileValue t1 = 2 ∨ tileValue t1 = 4) ∧
      (tileValue t2 = 2 ∨ tileValue t2 = 4) ∧
      ∀ q : Nat × Nat, q ≠ p1 → q ≠ p2 →
        cell (init_board t1 k1 t2 k2) q.1 q.2 = 0 := by
  have hwf0 : Wf zeroBoard := by decide
  have hne0 : emptyCells zeroBoard ≠ [] := by decide
  obtain ⟨i1, j1, hi1, hj1, hc1, hmem1, hpick1, hval1, heq1, hcell1, hframe1⟩ :=
    (add_random_tile_spec zeroBoard hwf0 t1 k1).2 hne0
  set b1 := add_random_tile zeroBoard t1 k1 with hb1
  have hwf1 : Wf b1 := by
    rw [heq1]
    exact wf_setCell hwf0 hi1 _
  have htv1 : tileValue t1 ≠ 0 := by cases t1 <;> simp [tileValue]
  have hne1 : emptyCells b1 ≠ [] := by
    have hq : ∃ q : Nat × Nat, q.1 < 4 ∧ q.2 < 4 ∧ q ≠ (i1, j1) := by
      by_cases h00 : (i1, j1) = (0, 0)
      · exact ⟨(0, 1), by norm_num, by norm_num, by rw [h00]; simp⟩
      · exact ⟨(0, 0), by norm_num, by norm_num, fun he => h00 he.symm⟩
    obtain ⟨q, hq1, hq2, hqne⟩ := hq
    have : q ∈ emptyCells b1 := by
      refine mem_emptyCells.2 ⟨hq1, hq2, ?_⟩
      rw [show cell b1 q.1 q.2 = cell zeroBoard q.1 q.2 from
        hframe1 q.1 q.2 (by simpa using hqne)]
      exact cell_zeroBoard q.1 q.2
    exact List.ne_nil_of_mem this
  obtain ⟨i2, j2, hi2, hj2, hc2, hmem2, hpick2, hval2, heq2, hcell2, hframe2⟩ :=
    (add_random_tile_spec b1 hwf1 t2 k2).2 hne1
  have hfin : init_board t1 k1 t2 k2 = add_random_tile b1 t2 k2 := rfl
  have hp12 : (i1, j1) ≠ (i2, j2) := by
    intro he
    injection he with hh1 hh2
    apply htv1
    rw [← hcell1, hh1, hh2]
    exact hc2
  refine ⟨(i1, j1), (i2, j2), hi1, hj1, hi2, hj2, hp12, ?_, ?_,
    hval1, hval2, ?_⟩
  · rw [hfin, hframe2 i1 j1 hp12]
    exact hcell1
  · rw [hfin]
    exact hcell2
  · intro q hq1 hq2
    rw [hfin]
    rw [hframe2 q.1 q.2 (by rw [Prod.mk.eta]; exact hq2)]
    rw [hframe1 q.1 q.2 (by rw [Prod.mk.eta]; exact hq1)]
    exact cell_zeroBoard q.1 q.2

/-- Witness for C7 at concrete draws. -/
theorem init_board_two_tiles_witness :
    ∃ p1 p2 : Nat × Nat,
      p1.1 < 4 ∧ p1.2 < 4 ∧ p2.1 < 4 ∧ p2.2 < 4 ∧ p1 ≠ p2 ∧
      cell (init_board true 0 false 3) p1.1 p1.2 = tileValue true ∧
      cell (init_board true 0 false 3) p2.1 p2.2 = tileValue false ∧
      (tileValue true = 2 ∨ tileValue true = 4) ∧
      (tileValue false = 2 ∨ tileValue false = 4) ∧
      ∀ q : Nat × Nat, q ≠ p1 → q ≠ p2 →
        cell (init_board true 0 false 3) q.1 q.2 = 0 :=
  init_board_two_tiles true 0 false 3

/-! ### C5: what `move` returns -/

/-- The claim that `move` returns the pre-spawn merged board fails: on
`[[2,2,0,0],0,0,0]` with move LEFT (and the concrete random draws
`true, 0`) the source returns the board with the spawned tile, not the
merged board `[[4,0,0,0],0,0,0]`. -/
theorem move_returns_post_spawn_cex :
    move [[2, 2, 0, 0], [0, 0, 0, 0], [0, 0, 0, 0], [0, 0, 0, 0]]
        Move.left true 0 =
      some [[4, 2, 0, 0], [0, 0, 0, 0], [0, 0, 0, 0], [0, 0, 0, 0]] ∧
    move [[2, 2, 0, 0], [0, 0, 0, 0], [0, 0, 0, 0], [0, 0, 0, 0]]
        Move.left true 0 ≠
      some [[4, 0, 0, 0], [0, 0, 0, 0], [0, 0, 0, 0], [0, 0, 0, 0]] := by
  decide

/-- C5 (amended): `move` first computes the merged pre-spawn board, raises
`IllegalMove` (`none`) exactly when it equals the input, and otherwise
spawns one random tile on the merged board and returns the post-spawn
result; the pre-spawn merged board for LEFT on `[[2,2,0,0],0,0,0]` is
`[[4,0,0,0],0,0,0]`.  Modulo the explicit random draws it is a pure
function of board and direction. -/
theorem move_merges_then_spawns :
    (∀ (b : Board) (m : Move) (t : Bool) (k : Nat),
        move b m t k = if moveBoard m b = b then none
          else some (add_random_tile (moveBoard m b) t k)) ∧
      movePre [[2, 2, 0, 0], [0, 0, 0, 0], [0, 0, 0, 0], [0, 0, 0, 0]]
          Move.left =
        some [[4, 0, 0, 0], [0, 0, 0, 0], [0, 0, 0, 0], [0, 0, 0, 0]] := by
  refine ⟨fun b m t k => ?_, by decide⟩
  by_cases hm : moveBoard m b = b <;> simp [move, movePre, hm]

/-! ### C9: the merge conserves the total sum -/

/-- Total of all tile values on the board. -/
def boardSum (b : Board) : Nat := (b.map (fun r => r.sum)).sum

lemma mergeStep_cons_zero (rest acc : List Nat) (lastVal : Nat) :
    mergeStep (0 :: rest) acc lastVal = mergeStep rest acc lastVal := rfl

lemma mergeStep_cons_nil {v : Nat} (rest : List Nat) (lastVal : Nat)
    (hv : v ≠ 0) : mergeStep (v :: rest) [] lastVal = mergeStep rest [v] v := by
  rw [show mergeStep (v :: rest) [] lastVal =
    if v = 0 then mergeStep rest [] lastVal else mergeStep rest [v] v from rfl,
    if_neg hv]

lemma mergeStep_cons_cons {v : Nat} (rest : List Nat) (a : Nat)
    (t : List Nat) (lastVal : Nat) (hv : v ≠ 0) :
    mergeStep (v :: rest) (a :: t) lastVal =
      if v = lastVal then mergeStep rest (a * 2 :: t) 0
      else mergeStep rest (v :: a :: t) v := by
  rw [show mergeStep (v :: rest) (a :: t) lastVal =
    if v = 0 then mergeStep rest (a :: t) lastVal
    else if v = lastVal then mergeStep rest (a * 2 :: t) 0
    else mergeStep rest (v :: a :: t) v from rfl, if_neg hv]

/-- The merge loop conserves the sum: a merge replaces `a, a` by `a * 2`. -/
lemma mergeStep_sum :
    ∀ (l acc : List Nat) (lastVal : Nat),
      (lastVal ≠ 0 → ∃ t, acc = lastVal :: t) →
      (mergeStep l acc lastVal).sum = acc.sum + l.sum := by
  intro l
  induction l with
  | nil => intro acc lastVal _; simp [mergeStep]
  | cons v rest ih =>
    intro acc lastVal hinv
    by_cases hv : v = 0
    · subst hv
      rw [mergeStep_cons_zero, ih acc lastVal hinv]
      simp
    · rcases acc with _ | ⟨a, t⟩
      · rw [mergeStep_cons_nil rest lastVal hv, ih [v] v (fun _ => ⟨[], rfl⟩)]
        simp
      · by_cases hvl : v = lastVal
        · obtain ⟨t', ht'⟩ := hinv (by rw [← hvl]; exact hv)
          have ha : a = lastVal := by injection ht' with h1 _
          rw [mergeStep_cons_cons rest a t lastVal hv, if_pos hvl,
            ih (a * 2 :: t) 0 (by intro h; exact absurd rfl h)]
          simp only [List.sum_cons]
          subst ha
          subst hvl
          ring
        · rw [mergeStep_cons_cons rest a t lastVal hv, if_neg hvl,
            ih (v :: a :: t) v (fun _ => ⟨a :: t, rfl⟩)]
          simp only [List.sum_cons]
          ring

/-- Compressing a row conserves its sum. -/
lemma compressRow_sum (row : Row) : (compressRow row).sum = row.sum := by
  simp only [compressRow]
  rw [List.sum_append, List.sum_reverse,
    mergeStep_sum row [] 0 (by intro h; exact absurd rfl h)]
  simp

lemma mergeStep_length_le :
    ∀ (l acc : List Nat) (lastVal : Nat),
      (mergeStep l acc lastVal).length ≤ acc.length + l.length := by
  intro l
  induction l with
  | nil => intro acc lastVal; simp [mergeStep]
  | cons v rest ih =>
    intro acc lastVal
    by_cases hv : v = 0
    · subst hv
      rw [mergeStep_cons_zero]
      have := ih acc lastVal
      simp only [List.length_cons]
      omega
    · rcases acc with _ | ⟨a, t⟩
      · rw [mergeStep_cons_nil rest lastVal hv]
        have := ih [v] v
        simp only [List.length_cons, List.length_nil] at this ⊢
        omega
      · by_cases hvl : v = lastVal
        · rw [mergeStep_cons_cons rest a t lastVal hv, if_pos hvl]
          have := ih (a * 2 :: t) 0
          simp only [List.length_cons] at this ⊢
          omega
        · rw [mergeStep_cons_cons rest a t lastVal hv, if_neg hvl]
          have := ih (v :: a :: t) v
          simp only [List.length_cons] at this ⊢
          omega

/-- A row of length at most 4 compresses to a row of length exactly 4. -/
lemma compressRow_length (row : Row) (h : row.length ≤ 4) :
    (compressRow row).length = 4 := by
  simp only [compressRow, List.length_append, List.length_reverse,
    List.length_replicate]
  have := mergeStep_length_le row [] 0
  simp only [List.length_nil] at this
  omega

lemma wf_transposeB (b : Board) : Wf (transposeB b) := by
  constructor
  · simp [transposeB]
  · intro r hr
    simp only [transposeB, List.mem_map] at hr
    obtain ⟨i, _, rfl⟩ := hr
    simp

lemma wf_flipCols {b : Board} (h : Wf b) : Wf (flipCols b) := by
  obtain ⟨hlen, hrow⟩ := h
  constructor
  · simp [flipCols, hlen]
  · intro r hr
    simp only [flipCols, List.mem_map] at hr
    obtain ⟨r', hr', rfl⟩ := hr
    simp [hrow r' hr']

lemma wf_compressBoard {b : Board} (h : Wf b) : Wf (compressBoard b) := by
  obtain ⟨hlen, hrow⟩ := h
  constructor
  · simp [compressBoard, hlen]
  · intro r hr
    simp only [compressBoard, List.mem_map] at hr
    obtain ⟨r', hr', rfl⟩ := hr
    exact compressRow_length r' (le_of_eq (hrow r' hr'))

/-- The merged board is always well-formed. -/
lemma wf_moveBoard {b : Board} (h : Wf b) (m : Move) : Wf (moveBoard m b) := by
  cases m
  · exact wf_compressBoard h
  · exact wf_flipCols (wf_compressBoard (wf_flipCols h))
  · exact wf_transposeB _
  · exact wf_transposeB _

lemma sum_set_add_getD :
    ∀ (l : List Nat) (i x : Nat), i < l.length →
      (l.set i x).sum + l.getD i 0 = l.sum + x := by
  intro l
  induction l with
  | nil => intro i x h; simp at h
  | cons a t ih =>
    intro i x h
    cases i with
    | zero => simp [List.sum_cons]; ring
    | succ i =>
      simp only [List.set_cons_succ, List.sum_cons, List.getD_cons_succ]
      have := ih i x (by simpa using h)
      omega

lemma map_sum_set (b : Board) :
    ∀ (i : Nat) (r : Row),
      (b.set i r).map (fun r => r.sum) =
        (b.map (fun r => r.sum)).set i r.sum := by
  induction b with
  | nil => intro i r; simp
  | cons a t ih =>
    intro i r
    cases i with
    | zero => simp
    | succ i => simp [ih i r]

lemma getD_map_sum (b : Board) :
    ∀ (i : Nat), i < b.length →
      (b.map (fun r => r.sum)).getD i 0 = (b.getD i []).sum := by
  induction b with
  | nil => intro i h; simp at h
  | cons a t ih =>
    intro i h
    cases i with
    | zero => rfl
    | succ i => exact ih i (by simpa using h)

/-- Writing a value onto an empty in-range cell adds exactly that value to
the board sum. -/
lemma boardSum_setCell {b : Board} (h : Wf b) {i j : Nat} (hi : i < 4)
    (hj : j < 4) (hzero : cell b i j = 0) (v : Nat) :
    boardSum (setCell b i j v) = boardSum b + v := by
  obtain ⟨hlen, hrow⟩ := h
  have hib : i < b.length := by rw [hlen]; exact hi
  have hrl : (b.getD i []).length = 4 :=
    hrow _ (getD_mem _ _ _ hib)
  have hjr : j < (b.getD i []).length := by rw [hrl]; exact hj
  have hrsum : ((b.getD i []).set j v).sum = (b.getD i []).sum + v := by
    have := sum_set_add_getD (b.getD i []) j v hjr
    have hz : (b.getD i []).getD j 0 = 0 := hzero
    omega
  unfold boardSum setCell
  rw [map_sum_set]
  have := sum_set_add_getD (b.map (fun r => r.sum)) i
    ((b.getD i []).set j v).sum (by rw [List.length_map]; exact hib)
  rw [getD_map_sum b i hib] at this
  omega

/-- C9: compressing along any direction conserves the total tile sum, so a
successful `move` increases the board sum by exactly the spawned tile value
(`tileValue t`, i.e. 2 or 4), or by 0 when the merged board has no empty
cell. -/
theorem move_sum_invariant (b : Board) (h : Wf b) :
    (∀ m : Move, boardSum (moveBoard m b) = boardSum b) ∧
      ∀ (m : Move) (t : Bool) (k : Nat) (r : Board), move b m t k = some r →
        (emptyCells (moveBoard m b) = [] → boardSum r = boardSum b) ∧
        (emptyCells (moveBoard m b) ≠ [] →
          boardSum r = boardSum b + tileValue t) := by
  have hsum1 : ∀ m : Move, boardSum (moveBoard m b) = boardSum b := by
    obtain ⟨x00, x01, x02, x03, x10, x11, x12, x13,
      x20, x21, x22, x23, x30, x31, x32, x33, rfl⟩ := wf_board_eq h
    intro m
    cases m
    · show boardSum [compressRow [x00, x01, x02, x03],
        compressRow [x10, x11, x12, x13], compressRow [x20, x21, x22, x23],
        compressRow [x30, x31, x32, x33]] = _
      simp [boardSum, compressRow_sum]
    · show boardSum [(compressRow [x03, x02, x01, x00]).reverse,
        (compressRow [x13, x12, x11, x10]).reverse,
        (compressRow [x23, x22, x21, x20]).reverse,
        (compressRow [x33, x32, x31, x30]).reverse] = _
      simp [boardSum, compressRow_sum, List.sum_reverse]
      ring
    · obtain ⟨u0, u1, u2, u3, hu⟩ :=
        exists_fourElems (compressRow_length [x00, x10, x20, x30] (by simp))
      obtain ⟨v0, v1, v2, v3, hv⟩ :=
        exists_fourElems (compressRow_length [x01, x11, x21, x31] (by simp))
      obtain ⟨w0, w1, w2, w3, hw⟩ :=
        exists_fourElems (compressRow_length [x02, x12, x22, x32] (by simp))
      obtain ⟨z0, z1, z2, z3, hz⟩ :=
        exists_fourElems (compressRow_length [x03, x13, x23, x33] (by simp))
      have su := compressRow_sum [x00, x10, x20, x30]
      have sv := compressRow_sum [x01, x11, x21, x31]
      have sw := compressRow_sum [x02, x12, x22, x32]
      have sz := compressRow_sum [x03, x13, x23, x33]
      rw [hu] at su; rw [hv] at sv; rw [hw] at sw; rw [hz] at sz
      simp only [List.sum_cons, List.sum_nil] at su sv sw sz
      show boardSum (transposeB [compressRow [x00, x10, x20, x30],
        compressRow [x01, x11, x21, x31], compressRow [x02, x12, x22, x32],
        compressRow [x03, x13, x23, x33]]) = _
      rw [hu, hv, hw, hz]
      have htr : transposeB [[u0, u1, u2, u3], [v0, v1, v2, v3],
          [w0, w1, w2, w3], [z0, z1, z2, z3]] =
          [[u0, v0, w0, z0], [u1, v1, w1, z1],
           [u2, v2, w2, z2], [u3, v3, w3, z3]] := rfl
      rw [htr]
      simp only [boardSum, List.map_cons, List.map_nil, List.sum_cons,
        List.sum_nil]
      omega
    · obtain ⟨u0, u1, u2, u3, hu⟩ :=
        exists_fourElems (compressRow_length [x30, x20, x10, x00] (by simp))
      obtain ⟨v0, v1, v2, v3, hv⟩ :=
        exists_fourElems (compressRow_length [x31, x21, x11, x01] (by simp))
      obtain ⟨w0, w1, w2, w3, hw⟩ :=
        exists_fourElems (compressRow_length [x32, x22, x12, x02] (by simp))
      obtain ⟨z0, z1, z2, z3, hz⟩ :=
        exists_fourElems (compressRow_length [x33, x23, x13, x03] (by simp))
      have su := compressRow_sum [x30, x20, x10, x00]
      have sv := compressRow_sum [x31, x21, x11, x01]
      have sw := compressRow_sum [x32, x22, x12, x02]
      have sz := compressRow_sum [x33, x23, x13, x03]
      rw [hu] at su; rw [hv] at sv; rw [hw] at sw; rw [hz] at sz
      simp only [List.sum_cons, List.sum_nil] at su sv sw sz
      show boardSum (transposeB (flipCols [compressRow [x30, x20, x10, x00],
        compressRow [x31, x21, x11, x01], compressRow [x32, x22, x12, x02],
        compressRow [x33, x23, x13, x03]])) = _
      rw [hu, hv, hw, hz]
      have htr : transposeB (flipCols [[u0, u1, u2, u3], [v0, v1, v2, v3],
          [w0, w1, w2, w3], [z0, z1, z2, z3]]) =
          [[u3, v3, w3, z3], [u2, v2, w2, z2],
           [u1, v1, w1, z1], [u0, v0, w0, z0]] := rfl
      rw [htr]
      simp only [boardSum, List.map_cons, List.map_nil, List.sum_cons,
        List.sum_nil]
      omega
  refine ⟨hsum1, ?_⟩
  intro m t k r hr
  have hchanged : moveBoard m b ≠ b := by
    intro hm
    rw [move, movePre, if_pos hm] at hr
    exact Option.noConfusion hr
  have hre : r = add_random_tile (moveBoard m b) t k := by
    rw [move, movePre, if_neg hchanged] at hr
    exact (Option.some.inj hr).symm
  constructor
  · intro hfull
    rw [hre, (add_random_tile_spec _ (wf_moveBoard h m) t k).1 hfull]
    exact hsum1 m
  · intro hne
    obtain ⟨i, j, hi, hj, hc0, _, _, _, heq, _, _⟩ :=
      (add_random_tile_spec _ (wf_moveBoard h m) t k).2 hne
    rw [hre, heq, boardSum_setCell (wf_moveBoard h m) hi hj hc0, hsum1 m]

/-- Witness for C9: concrete sum conservation of the merge. -/
theorem move_sum_invariant_witness :
    boardSum (moveBoard Move.left
        [[2, 2, 0, 0], [0, 0, 0, 0], [0, 0, 0, 0], [4, 4, 8, 0]]) =
      boardSum [[2, 2, 0, 0], [0, 0, 0, 0], [0, 0, 0, 0], [4, 4, 8, 0]] :=
  (move_sum_invariant
      [[2, 2, 0, 0], [0, 0, 0, 0], [0, 0, 0, 0], [4, 4, 8, 0]]
      (by decide)).1 Move.left

/-! ### C8 / C10: the agent's move selection (`get_next_move`) -/

/-- `startsWith needle hay`: `hay` begins with `needle`. -/
def startsWith : List Char → List Char → Bool
  | [], _ => true
  | _ :: _, [] => false
  | a :: as, b :: bs => a == b && startsWith as bs

/-- Python's substring test `needle in hay`. -/
def containsSeq (needle : List Char) : List Char → Bool
  | [] => startsWith needle []
  | c :: t => startsWith needle (c :: t) || containsSeq needle t

/-- `Move.name`: the direction name as written in the response. -/
def moveName : Move → List Char
  | Move.left => ['L', 'E', 'F', 'T']
  | Move.right => ['R', 'I', 'G', 'H', 'T']
  | Move.up => ['U', 'P']
  | Move.down => ['D', 'O', 'W', 'N']

/-- The enum value of each direction (LEFT=0, RIGHT=1, UP=2, DOWN=3), which
is also the priority order of the parsing loop. -/
def moveIdx : Move → Nat
  | Move.left => 0
  | Move.right => 1
  | Move.up => 2
  | Move.down => 3

/-- The `move_text` extraction of agent.py lines 116-119: the first name in
the fixed order LEFT, RIGHT, UP, DOWN that occurs as a substring anywhere in
the response; `[]` (the empty string) when none does. -/
def moveText (resp : List Char) : List Char :=
  match allMoves.find? (fun m => containsSeq (moveName m) resp) with
  | some m => moveName m
  | none => []

/-- The move-selection logic of agent.py lines 134-152: first the loop over
`available_moves` testing `move_direction.name in move_text`, then the
LEFT/RIGHT/UP/DOWN inference chain (each arm also requiring membership in
the available moves), and finally the fallback `available_moves[0]`
(modelled by `head?`).  The transport-error path of lines 157-161 returns
the same fallback `available_moves[0]`. -/
def selectMove (avail : List Move) (resp : List Char) : Option Move :=
  match avail.find? (fun m => containsSeq (moveName m) (moveText resp)) with
  | some m => some m
  | none =>
    if containsSeq (moveName Move.left) (moveText resp) ∧
        Move.left ∈ avail then some Move.left
    else if containsSeq (moveName Move.right) (moveText resp) ∧
        Move.right ∈ avail then some Move.right
    else if containsSeq (moveName Move.up) (moveText resp) ∧
        Move.up ∈ avail then some Move.up
    else if containsSeq (moveName Move.down) (moveText resp) ∧
        Move.down ∈ avail then some Move.down
    else avail.head?

/-- No direction name is a substring of another's. -/
lemma name_containsSeq_name (m d : Move) :
    containsSeq (moveName m) (moveName d) = true ↔ m = d := by
  cases m <;> cases d <;> decide

lemma find?_name_eq_some_of_mem :
    ∀ (l : List Move) (d : Move), d ∈ l →
      l.find? (fun m => containsSeq (moveName m) (moveName d)) = some d := by
  intro l
  induction l with
  | nil => intro d hd; simp at hd
  | cons a t ih =>
    intro d hd
    by_cases ha : a = d
    · subst ha
      exact List.find?_cons_of_pos _ (by rw [name_containsSeq_name])
    · rcases List.mem_cons.1 hd with rfl | hd'
      · exact absurd rfl ha
      · rw [List.find?_cons_of_neg _ (by rw [name_containsSeq_name]; exact ha)]
        exact ih d hd'

/-- If no available move's name occurs in the parsed `move_text`, every
branch of the selection falls through to `available_moves[0]`. -/
lemma selectMove_fallback (avail : List Move) (resp : List Char)
    (hno : ∀ m ∈ avail, ¬ containsSeq (moveName m) (moveText resp) = true) :
    selectMove avail resp = avail.head? := by
  have hf : avail.find?
      (fun m => containsSeq (moveName m) (moveText resp)) = none :=
    List.find?_eq_none.2 (fun x hx => by simpa using hno x hx)
  have hni : ∀ mi : Move,
      ¬ (containsSeq (moveName mi) (moveText resp) ∧ mi ∈ avail) := by
    rintro mi ⟨hi, hm⟩
    exact hno mi hm hi
  simp only [selectMove, hf]
  rw [if_neg (hni Move.left), if_neg (hni Move.right),
    if_neg (hni Move.up), if_neg (hni Move.down)]

/-- The selected move is always drawn from the available list. -/
lemma selectMove_mem (avail : List Move) (resp : List Char)
    (h : avail ≠ []) :
    ∃ m, selectMove avail resp = some m ∧ m ∈ avail := by
  rcases hf : avail.find?
      (fun m => containsSeq (moveName m) (moveText resp)) with _ | m
  · simp only [selectMove, hf]
    split_ifs with h1 h2 h3 h4
    · exact ⟨Move.left, rfl, h1.2⟩
    · exact ⟨Move.right, rfl, h2.2⟩
    · exact ⟨Move.up, rfl, h3.2⟩
    · exact ⟨Move.down, rfl, h4.2⟩
    · obtain ⟨a, t, rfl⟩ := List.exists_cons_of_ne_nil h
      exact ⟨a, rfl, List.mem_cons_self a t⟩
  · simp only [selectMove, hf]
    exact ⟨m, rfl, List.mem_of_find?_eq_some hf⟩

/-- C8: whenever the legal-move set is non-empty, the selected move is a
member of it; when the response names no available move (in particular when
it is unparseable) the deterministic fallback — the first legal move in
enumeration order — is chosen; and the legal-move set itself is the fixed
enumeration LEFT, RIGHT, UP, DOWN filtered by legality, so its head is the
first legal move.  The transport-error path returns the same
`available_moves[0]`, so the Oracle can never make the loop fail. -/
theorem gameloop_move_always_legal (b : Board) (d : Move → Bool × Nat)
    (resp : List Char) (h : get_available_moves b d ≠ []) :
    (∃ m, selectMove (get_available_moves b d) resp = some m ∧
        m ∈ get_available_moves b d) ∧
      ((∀ m ∈ get_available_moves b d,
          ¬ containsSeq (moveName m) (moveText resp) = true) →
        selectMove (get_available_moves b d) resp =
          (get_available_moves b d).head?) ∧
      get_available_moves b d =
        allMoves.filter (fun m => decide (moveBoard m b ≠ b)) :=
  ⟨selectMove_mem _ resp h,
    fun hno => selectMove_fallback _ resp hno,
    get_available_moves_eq b d⟩

/-- Witness for C8 at a concrete board and garbage response. -/
theorem gameloop_move_always_legal_witness :
    ∃ m, selectMove
        (get_available_moves
          [[2, 2, 0, 0], [0, 0, 0, 0], [0, 0, 0, 0], [0, 0, 0, 0]]
          (fun _ => (true, 0))) ['X', 'Y'] = some m ∧
      m ∈ get_available_moves
          [[2, 2, 0, 0], [0, 0, 0, 0], [0, 0, 0, 0], [0, 0, 0, 0]]
          (fun _ => (true, 0)) :=
  (gameloop_move_always_legal
      [[2, 2, 0, 0], [0, 0, 0, 0], [0, 0, 0, 0], [0, 0, 0, 0]]
      (fun _ => (true, 0)) ['X', 'Y'] (by decide)).1

/-- C10: the chosen move is determined by the first direction name in the
fixed priority order LEFT, RIGHT, UP, DOWN occurring as a substring
anywhere in the response: if that direction is available it is chosen,
otherwise (or when no name occurs) the first available move is; the final
`MOVE:` line has no special status, so a name appearing earlier in the
reasoning overrides the declared final move, as the concrete example
shows. -/
theorem selectMove_first_substring_priority (resp : List Char)
    (avail : List Move) :
    (∀ d : Move, moveText resp = moveName d → d ∈ avail →
        selectMove avail resp = some d) ∧
      (∀ d : Move, moveText resp = moveName d → d ∉ avail →
        selectMove avail resp = avail.head?) ∧
      (moveText resp = [] → selectMove avail resp = avail.head?) ∧
      (∀ d : Move, containsSeq (moveName d) resp = true →
        (∀ d' : Move, containsSeq (moveName d') resp = true →
          moveIdx d ≤ moveIdx d') →
        moveText resp = moveName d) ∧
      selectMove [Move.left, Move.right, Move.up, Move.down]
          ['C', 'A', 'N', 'D', 'I', 'D', 'A', 'T', 'E', ' ', 'M', 'O',
           'V', 'E', ':', ' ', 'L', 'E', 'F', 'T', ' ', 'M', 'O', 'V',
           'E', ':', ' ', 'D', 'O', 'W', 'N'] =
        some Move.left := by
  refine ⟨?_, ?_, ?_, ?_, by decide⟩
  · intro d hd hmem
    have hf : avail.find?
        (fun m => containsSeq (moveName m) (moveText resp)) = some d := by
      rw [hd]
      exact find?_name_eq_some_of_mem avail d hmem
    simp only [selectMove, hf]
  · intro d hd hnm
    apply selectMove_fallback
    intro m hm hi
    rw [hd, name_containsSeq_name] at hi
    exact hnm (hi ▸ hm)
  · intro h0
    apply selectMove_fallback
    intro m hm hi
    rw [h0] at hi
    cases m <;> exact absurd hi (by decide)
  · intro d hd hmin
    have hname : ∀ d' : Move, moveIdx d' < moveIdx d →
        ¬ containsSeq (moveName d') resp = true := by
      intro d' hlt hi
      have := hmin d' hi
      omega
    cases d
    · have h1 : List.find? (fun m => containsSeq (moveName m) resp)
          [Move.left, Move.right, Move.up, Move.down] = some Move.left :=
        List.find?_cons_of_pos _ hd
      simp only [moveText, allMoves, h1]
    · have h1 : List.find? (fun m => containsSeq (moveName m) resp)
          [Move.left, Move.right, Move.up, Move.down] =
          List.find? (fun m => containsSeq (moveName m) resp)
            [Move.right, Move.up, Move.down] :=
        List.find?_cons_of_neg _ (hname Move.left (by decide))
      have h2 : List.find? (fun m => containsSeq (moveName m) resp)
          [Move.right, Move.up, Move.down] = some Move.right :=
        List.find?_cons_of_pos _ hd
      simp only [moveText, allMoves, h1, h2]
    · have h1 : List.find? (fun m => containsSeq (moveName m) resp)
          [Move.left, Move.right, Move.up, Move.down] =
          List.find? (fun m => containsSeq (moveName m) resp)
            [Move.right, Move.up, Move.down] :=
        List.find?_cons_of_neg _ (hname Move.left (by decide))
      have h2 : List.find? (fun m => containsSeq (moveName m) resp)
          [Move.right, Move.up, Move.down] =
          List.find? (fun m => containsSeq (moveName m) resp)
            [Move.up, Move.down] :=
        List.find?_cons_of_neg _ (hname Move.right (by decide))
      have h3 : List.find? (fun m => containsSeq (moveName m) resp)
          [Move.up, Move.down] = some Move.up :=
        List.find?_cons_of_pos _ hd
      simp only [moveText, allMoves, h1, h2, h3]
    · have h1 : List.find? (fun m => containsSeq (moveName m) resp)
          [Move.left, Move.right, Move.up, Move.down] =
          List.find? (fun m => containsSeq (moveName m) resp)
            [Move.right, Move.up, Move.down] :=
        List.find?_cons_of_neg _ (hname Move.left (by decide))
      have h2 : List.find? (fun m => containsSeq (moveName m) resp)
          [Move.right, Move.up, Move.down] =
          List.find? (fun m => containsSeq (moveName m) resp)
            [Move.up, Move.down] :=
        List.find?_cons_of_neg _ (hname Move.right (by decide))
      have h3 : List.find? (fun m => containsSeq (moveName m) resp)
          [Move.up, Move.down] =
          List.find? (fun m => containsSeq (moveName m) resp) [Move.down] :=
        List.find?_cons_of_neg _ (hname Move.up (by decide))
      have h4 : List.find? (fun m => containsSeq (moveName m) resp)
          [Move.down] = some Move.down :=
        List.find?_cons_of_pos _ hd
      simp only [moveText, allMoves, h1, h2, h3, h4]

/-- Witness for C10 at a concrete response and availability list. -/
theorem selectMove_first_substring_priority_witness :
    selectMove [Move.down, Move.left]
        ['I', ' ', 'g', 'o', ' ', 'L', 'E', 'F', 'T'] = some Move.left :=
  (selectMove_first_substring_priority
      ['I', ' ', 'g', 'o', ' ', 'L', 'E', 'F', 'T']
      [Move.down, Move.left]).1 Move.left (by decide) (by decide)

end Game2048
